import Mathlib

/-!
Verification development for the "buggy" pass plugin
(`src/buggy_plugin.cpp`): a configurable fault-injection engine.

The C++ source is shallowly embedded as Lean definitions:

* `BuggyOptions`           — the option struct (lines 19-37), field for field.
* `parseBuggyOptions`      — the option parser (lines 180-232), working on
  `List Char` in place of `StringRef`, with `splitOnce` modelling
  `StringRef::split(';')` and `consumeNo` modelling `consume_front("no-")`.
* `BuggyPass.run`          — the function pass (lines 64-178), over an
  explicit function/module model; `Flow` distinguishes a normal return
  (with the resulting function and the `Changed` flag, where `Changed =
  true` corresponds to returning `PreservedAnalyses::none()`), a
  `report_fatal_error` abort, and the non-terminating indirect-call loop.
* `BuggyAttrPass.run`      — the module pass (lines 234-241).
* `indirectCallBusyLoop`   — a fuel-indexed model of the busy loop at
  lines 167-171 (`while (CI && !CI->getCalledFunction()) side_effect = 0;`),
  recording whether the loop exited and how many writes to `side_effect`
  it performed.
-/

namespace BuggyPlugin

/-- The option struct of the plugin (source lines 19-37), in source order.
All fields default to `false`, as in the C++ default member initializers. -/
structure BuggyOptions where
  CrashOnVector : Bool := false
  CrashOnShuffleVector : Bool := false
  CrashOnLoadOfIntToPtr : Bool := false
  CrashOnStoreToConstantExpr : Bool := false
  CrashOnAggregatePhi : Bool := false
  CrashOnPhiRepeatedPredecessor : Bool := false
  CrashOnPhiSelfReference : Bool := false
  CrashOnSwitchOddNumberCases : Bool := false
  CrashOnI1Select : Bool := false
  CrashIfWeakGlobalExists : Bool := false
  InfLoopOnIndirectCall : Bool := false
  BugOnlyIfOddNumberInsts : Bool := false
  BugOnlyIfInternalFunc : Bool := false
  BugOnlyIfExternalFunc : Bool := false
  InsertUnparseableAsm : Bool := false
  MiscompileICmpSltToSle : Bool := false
  CrashOnBuggyAttr : Bool := false
deriving DecidableEq

/-- The seventeen option fields, used to state parser claims.  Listed in
the order of the parser's if/else-if chain (source lines 190-223). -/
inductive Field
  | crashOnVector
  | crashOnShuffleVector
  | crashOnAggregatePhi
  | crashOnRepeatedPhiPredecessor
  | crashOnPhiSelfReference
  | crashLoadOfIntToPtr
  | crashStoreToConstantExpr
  | crashSwitchOddNumberCases
  | crashOnI1Select
  | crashIfWeakGlobalExists
  | infloopOnIndirectCall
  | bugOnlyIfOddNumberInsts
  | bugOnlyIfInternalFunc
  | bugOnlyIfExternalFunc
  | insertUnparseableAsm
  | miscompileICmpSltToSle
  | crashOnBuggyAttr
deriving DecidableEq

/-- The configuration name of each field, exactly as compared at source
lines 190-223. -/
def fieldName : Field → List Char
  | Field.crashOnVector => "crash-on-vector".data
  | Field.crashOnShuffleVector => "crash-on-shufflevector".data
  | Field.crashOnAggregatePhi => "crash-on-aggregate-phi".data
  | Field.crashOnRepeatedPhiPredecessor => "crash-on-repeated-phi-predecessor".data
  | Field.crashOnPhiSelfReference => "crash-on-phi-self-reference".data
  | Field.crashLoadOfIntToPtr => "crash-load-of-inttoptr".data
  | Field.crashStoreToConstantExpr => "crash-store-to-constantexpr".data
  | Field.crashSwitchOddNumberCases => "crash-switch-odd-number-cases".data
  | Field.crashOnI1Select => "crash-on-i1-select".data
  | Field.crashIfWeakGlobalExists => "crash-if-weak-global-exists".data
  | Field.infloopOnIndirectCall => "infloop-on-indirect-call".data
  | Field.bugOnlyIfOddNumberInsts => "bug-only-if-odd-number-insts".data
  | Field.bugOnlyIfInternalFunc => "bug-only-if-internal-func".data
  | Field.bugOnlyIfExternalFunc => "bug-only-if-external-func".data
  | Field.insertUnparseableAsm => "insert-unparseable-asm".data
  | Field.miscompileICmpSltToSle => "miscompile-icmp-slt-to-sle".data
  | Field.crashOnBuggyAttr => "crash-on-buggy-attr".data

/-- Setting the struct field that a `Field` denotes. -/
def upd (R : BuggyOptions) : Field → Bool → BuggyOptions
  | Field.crashOnVector, e => { R with CrashOnVector := e }
  | Field.crashOnShuffleVector, e => { R with CrashOnShuffleVector := e }
  | Field.crashOnAggregatePhi, e => { R with CrashOnAggregatePhi := e }
  | Field.crashOnRepeatedPhiPredecessor, e => { R with CrashOnPhiRepeatedPredecessor := e }
  | Field.crashOnPhiSelfReference, e => { R with CrashOnPhiSelfReference := e }
  | Field.crashLoadOfIntToPtr, e => { R with CrashOnLoadOfIntToPtr := e }
  | Field.crashStoreToConstantExpr, e => { R with CrashOnStoreToConstantExpr := e }
  | Field.crashSwitchOddNumberCases, e => { R with CrashOnSwitchOddNumberCases := e }
  | Field.crashOnI1Select, e => { R with CrashOnI1Select := e }
  | Field.crashIfWeakGlobalExists, e => { R with CrashIfWeakGlobalExists := e }
  | Field.infloopOnIndirectCall, e => { R with InfLoopOnIndirectCall := e }
  | Field.bugOnlyIfOddNumberInsts, e => { R with BugOnlyIfOddNumberInsts := e }
  | Field.bugOnlyIfInternalFunc, e => { R with BugOnlyIfInternalFunc := e }
  | Field.bugOnlyIfExternalFunc, e => { R with BugOnlyIfExternalFunc := e }
  | Field.insertUnparseableAsm, e => { R with InsertUnparseableAsm := e }
  | Field.miscompileICmpSltToSle, e => { R with MiscompileICmpSltToSle := e }
  | Field.crashOnBuggyAttr, e => { R with CrashOnBuggyAttr := e }

/-- Reading the struct field that a `Field` denotes. -/
def getField (R : BuggyOptions) : Field → Bool
  | Field.crashOnVector => R.CrashOnVector
  | Field.crashOnShuffleVector => R.CrashOnShuffleVector
  | Field.crashOnAggregatePhi => R.CrashOnAggregatePhi
  | Field.crashOnRepeatedPhiPredecessor => R.CrashOnPhiRepeatedPredecessor
  | Field.crashOnPhiSelfReference => R.CrashOnPhiSelfReference
  | Field.crashLoadOfIntToPtr => R.CrashOnLoadOfIntToPtr
  | Field.crashStoreToConstantExpr => R.CrashOnStoreToConstantExpr
  | Field.crashSwitchOddNumberCases => R.CrashOnSwitchOddNumberCases
  | Field.crashOnI1Select => R.CrashOnI1Select
  | Field.crashIfWeakGlobalExists => R.CrashIfWeakGlobalExists
  | Field.infloopOnIndirectCall => R.InfLoopOnIndirectCall
  | Field.bugOnlyIfOddNumberInsts => R.BugOnlyIfOddNumberInsts
  | Field.bugOnlyIfInternalFunc => R.BugOnlyIfInternalFunc
  | Field.bugOnlyIfExternalFunc => R.BugOnlyIfExternalFunc
  | Field.insertUnparseableAsm => R.InsertUnparseableAsm
  | Field.miscompileICmpSltToSle => R.MiscompileICmpSltToSle
  | Field.crashOnBuggyAttr => R.CrashOnBuggyAttr

/-- Model of `StringRef::split(';')` (source line 187): the part before the
first `;` and the part after it; when there is no `;`, the whole string and
the empty string. -/
def splitOnce : List Char → List Char × List Char
  | [] => ([], [])
  | c :: rest =>
    if c = ';' then ([], rest)
    else (c :: (splitOnce rest).1, (splitOnce rest).2)

/-- Model of `ParamName.consume_front("no-")` (source line 189): the first
component is `Enable` (`false` when the prefix was present and stripped). -/
def consumeNo : List Char → Bool × List Char
  | 'n' :: 'o' :: '-' :: rest => (false, rest)
  | s => (true, s)

/-- Lookup half of the if/else-if chain of source lines 190-223, in the
chain's order: which field a (already `no-`-stripped) segment names, if
any. -/
def fieldOfName (name : List Char) : Option Field :=
  if name = fieldName Field.crashOnVector then some Field.crashOnVector
  else if name = fieldName Field.crashOnShuffleVector then some Field.crashOnShuffleVector
  else if name = fieldName Field.crashOnAggregatePhi then some Field.crashOnAggregatePhi
  else if name = fieldName Field.crashOnRepeatedPhiPredecessor then some Field.crashOnRepeatedPhiPredecessor
  else if name = fieldName Field.crashOnPhiSelfReference then some Field.crashOnPhiSelfReference
  else if name = fieldName Field.crashLoadOfIntToPtr then some Field.crashLoadOfIntToPtr
  else if name = fieldName Field.crashStoreToConstantExpr then some Field.crashStoreToConstantExpr
  else if name = fieldName Field.crashSwitchOddNumberCases then some Field.crashSwitchOddNumberCases
  else if name = fieldName Field.crashOnI1Select then some Field.crashOnI1Select
  else if name = fieldName Field.crashIfWeakGlobalExists then some Field.crashIfWeakGlobalExists
  else if name = fieldName Field.infloopOnIndirectCall then some Field.infloopOnIndirectCall
  else if name = fieldName Field.bugOnlyIfOddNumberInsts then some Field.bugOnlyIfOddNumberInsts
  else if name = fieldName Field.bugOnlyIfInternalFunc then some Field.bugOnlyIfInternalFunc
  else if name = fieldName Field.bugOnlyIfExternalFunc then some Field.bugOnlyIfExternalFunc
  else if name = fieldName Field.insertUnparseableAsm then some Field.insertUnparseableAsm
  else if name = fieldName Field.miscompileICmpSltToSle then some Field.miscompileICmpSltToSle
  else if name = fieldName Field.crashOnBuggyAttr then some Field.crashOnBuggyAttr
  else none

/-- The body of the if/else-if chain of source lines 190-223: when the
(already `no-`-stripped) segment names a known field, assign `Enable` to
that field of `Result`; otherwise report failure (`none`). -/
def applyToken (R : BuggyOptions) (name : List Char) (e : Bool) : Option BuggyOptions :=
  match fieldOfName name with
  | some f => some (upd R f e)
  | none => none

/-- The error text built at source lines 225-227: note that the `{0}`
placeholder receives `Params`, which at that point is the *remaining
unparsed tail* (the parameter list was already re-assigned by `split`). -/
def invalidParamMsg (tail : List Char) : List Char :=
  "invalid buggy pass parameter ".data ++ Char.ofNat 39 :: (tail ++ [Char.ofNat 39])

theorem splitOnce_snd_le (s : List Char) : (splitOnce s).2.length ≤ s.length := by
  induction s with
  | nil => simp [splitOnce]
  | cons c rest ih =>
    by_cases h : c = ';' <;> simp [splitOnce, h] <;> omega

theorem splitOnce_snd_lt (s : List Char) (h : ¬ s = []) :
    (splitOnce s).2.length < s.length := by
  match s with
  | [] => exact absurd rfl h
  | c :: rest =>
    by_cases hc : c = ';'
    · simp [splitOnce, hc]
    · have := splitOnce_snd_le rest
      simp [splitOnce, hc]
      omega

/-- The parameter-parsing loop of source lines 185-229. -/
def parseLoop (R : BuggyOptions) (s : List Char) : Except (List Char) BuggyOptions :=
  if h : s = [] then Except.ok R
  else
    match applyToken R (consumeNo (splitOnce s).1).2 (consumeNo (splitOnce s).1).1 with
    | some R2 => parseLoop R2 (splitOnce s).2
    | none => Except.error (invalidParamMsg (splitOnce s).2)
termination_by s.length
decreasing_by exact splitOnce_snd_lt s h

/-- `parseBuggyOptions` (source lines 180-232): the empty parameter string
yields the default options; otherwise the loop runs to completion or to the
first unrecognized segment. -/
def parseBuggyOptions (s : List Char) : Except (List Char) BuggyOptions :=
  if s = [] then Except.ok {} else parseLoop {} s

theorem parseLoop_nil (R : BuggyOptions) : parseLoop R [] = Except.ok R := by
  rw [parseLoop]
  simp

theorem parseLoop_step (R : BuggyOptions) (s : List Char) (h : ¬ s = []) :
    parseLoop R s =
      match applyToken R (consumeNo (splitOnce s).1).2 (consumeNo (splitOnce s).1).1 with
      | some R2 => parseLoop R2 (splitOnce s).2
      | none => Except.error (invalidParamMsg (splitOnce s).2) := by
  conv_lhs => rw [parseLoop]
  simp [h]

theorem fieldOfName_fieldName (f : Field) : fieldOfName (fieldName f) = some f := by
  cases f <;> rfl

theorem applyToken_fieldName (R : BuggyOptions) (f : Field) (e : Bool) :
    applyToken R (fieldName f) e = some (upd R f e) := by
  unfold applyToken
  rw [fieldOfName_fieldName]

/-- One parsed token: its polarity (`false` for a `no-` prefix) and field. -/
def updTok (R : BuggyOptions) (t : Bool × Field) : BuggyOptions := upd R t.2 t.1

/-- The configuration text of one token. -/
def render : Bool × Field → List Char
  | (true, f) => fieldName f
  | (false, f) => 'n' :: 'o' :: '-' :: fieldName f

theorem semi_not_mem_fieldName (f : Field) : ';' ∉ fieldName f := by
  cases f <;> decide

theorem fieldName_ne_nil (f : Field) : fieldName f ≠ [] := by
  cases f <;> decide

theorem consumeNo_fieldName (f : Field) : consumeNo (fieldName f) = (true, fieldName f) := by
  cases f <;> rfl

theorem semi_not_mem_render (t : Bool × Field) : ';' ∉ render t := by
  obtain ⟨e, f⟩ := t
  cases e with
  | false =>
    simp only [render, List.mem_cons, not_or]
    exact ⟨by decide, by decide, by decide, semi_not_mem_fieldName f⟩
  | true => exact semi_not_mem_fieldName f

theorem render_ne_nil (t : Bool × Field) : render t ≠ [] := by
  obtain ⟨e, f⟩ := t
  cases e with
  | false => simp [render]
  | true => exact fieldName_ne_nil f

theorem consumeNo_render (t : Bool × Field) : consumeNo (render t) = (t.1, fieldName t.2) := by
  obtain ⟨e, f⟩ := t
  cases e with
  | false => rfl
  | true => exact consumeNo_fieldName f

theorem splitOnce_append (l r : List Char) (h : ';' ∉ l) :
    splitOnce (l ++ ';' :: r) = (l, r) := by
  induction l with
  | nil => simp [splitOnce]
  | cons c cs ih =>
    have hc : c ≠ ';' := by rintro rfl; exact h (List.mem_cons_self _ _)
    have hcs : ';' ∉ cs := fun hm => h (List.mem_cons_of_mem _ hm)
    simp [splitOnce, hc, ih hcs]

theorem splitOnce_no_semi (l : List Char) (h : ';' ∉ l) : splitOnce l = (l, []) := by
  induction l with
  | nil => rfl
  | cons c cs ih =>
    have hc : c ≠ ';' := by rintro rfl; exact h (List.mem_cons_self _ _)
    have hcs : ';' ∉ cs := fun hm => h (List.mem_cons_of_mem _ hm)
    simp [splitOnce, hc, ih hcs]

theorem parseLoop_token (R : BuggyOptions) (t : Bool × Field) (rest : List Char) :
    parseLoop R (render t ++ ';' :: rest) = parseLoop (updTok R t) rest := by
  have hne : render t ++ ';' :: rest ≠ [] := by simp
  rw [parseLoop_step _ _ hne, splitOnce_append _ _ (semi_not_mem_render t)]
  simp only [consumeNo_render, applyToken_fieldName, updTok]

theorem parseLoop_last (R : BuggyOptions) (t : Bool × Field) :
    parseLoop R (render t) = Except.ok (updTok R t) := by
  rw [parseLoop_step _ _ (render_ne_nil t), splitOnce_no_semi _ (semi_not_mem_render t)]
  simp only [consumeNo_render, applyToken_fieldName, updTok, parseLoop_nil]

/-- Well-formed configuration text: the tokens joined by `;`. -/
def joinTokens : List (Bool × Field) → List Char
  | [] => []
  | [t] => render t
  | t :: ts => render t ++ ';' :: joinTokens ts

/-- Configuration text made of zero or more valid tokens, each followed by
a `;`, and then an arbitrary remainder. -/
def joinWithTail (toks : List (Bool × Field)) (rest : List Char) : List Char :=
  toks.foldr (fun t acc => render t ++ ';' :: acc) rest

theorem parseLoop_joinTokens (toks : List (Bool × Field)) (R : BuggyOptions) (h : toks ≠ []) :
    parseLoop R (joinTokens toks) = Except.ok (toks.foldl updTok R) := by
  induction toks generalizing R with
  | nil => exact absurd rfl h
  | cons t ts ih =>
    cases ts with
    | nil => simpa [joinTokens] using parseLoop_last R t
    | cons u ts2 =>
      rw [show joinTokens (t :: u :: ts2) = render t ++ ';' :: joinTokens (u :: ts2) from rfl,
        parseLoop_token, ih _ (by simp)]
      simp

theorem parseLoop_joinWithTail (toks : List (Bool × Field)) (R : BuggyOptions)
    (rest : List Char) :
    parseLoop R (joinWithTail toks rest) = parseLoop (toks.foldl updTok R) rest := by
  induction toks generalizing R with
  | nil => rfl
  | cons t ts ih =>
    show parseLoop R (render t ++ ';' :: joinWithTail ts rest) = _
    rw [parseLoop_token, ih]
    rfl

theorem joinWithTail_ne_nil (toks : List (Bool × Field)) (rest : List Char)
    (h : rest ≠ []) : joinWithTail toks rest ≠ [] := by
  cases toks with
  | nil => exact h
  | cons t ts =>
    show render t ++ ';' :: joinWithTail ts rest ≠ []
    simp

/-- The polarity carried by the last occurrence of field `f` among the
tokens, `false` (disabled) when `f` is unmentioned. -/
def lastPolarity (toks : List (Bool × Field)) (f : Field) : Bool :=
  match toks.reverse.find? (fun t => decide (t.2 = f)) with
  | some t => t.1
  | none => false

theorem getField_upd (R : BuggyOptions) (g f : Field) (b : Bool) :
    getField (upd R g b) f = if g = f then b else getField R f := by
  cases g <;> cases f <;> simp [upd, getField]

theorem getField_foldl (toks : List (Bool × Field)) (R : BuggyOptions) (f : Field) :
    getField (toks.foldl updTok R) f =
      match toks.reverse.find? (fun t => decide (t.2 = f)) with
      | some t => t.1
      | none => getField R f := by
  induction toks generalizing R with
  | nil => simp
  | cons t ts ih =>
    rw [List.foldl_cons, ih, List.reverse_cons, List.find?_append]
    cases hfind : ts.reverse.find? (fun u => decide (u.2 = f)) with
    | some u => simp [hfind]
    | none =>
      by_cases hf : t.2 = f
      · simp [hfind, List.find?, hf, updTok, getField_upd]
      · simp [hfind, List.find?, hf, updTok, getField_upd]

theorem getField_default (f : Field) : getField {} f = false := by
  cases f <;> rfl

/-- C1: every configuration string made only of known field names (each
optionally `no-`-prefixed) joined by `;` parses successfully; in the
resulting option model each mentioned field carries the polarity of its
last occurrence (`no-` means disabled), every unmentioned field is
disabled, and the empty token list — the empty string — yields the
all-disabled default model. -/
theorem parse_known_token_lists (toks : List (Bool × Field)) :
    ∃ M, parseBuggyOptions (joinTokens toks) = Except.ok M ∧
      ∀ f, getField M f = lastPolarity toks f := by
  cases toks with
  | nil =>
    refine ⟨{}, by simp [joinTokens, parseBuggyOptions], fun f => ?_⟩
    simp [lastPolarity, getField_default]
  | cons t ts =>
    refine ⟨(t :: ts).foldl updTok {}, ?_, fun f => ?_⟩
    · have hne : joinTokens (t :: ts) ≠ [] := by
        cases ts with
        | nil => exact render_ne_nil t
        | cons u ts2 =>
          show render t ++ ';' :: joinTokens (u :: ts2) ≠ []
          simp
      unfold parseBuggyOptions
      rw [if_neg hne]
      exact parseLoop_joinTokens _ _ (by simp)
    · rw [getField_foldl]
      unfold lastPolarity
      cases hfind : (t :: ts).reverse.find? (fun u => decide (u.2 = f)) with
      | some u => rfl
      | none => exact getField_default f

/-- Helper shared by the parser error results: parsing a configuration
string that begins with valid tokens and then a segment naming no known
field stops there, with the error carrying the yet-unparsed tail. -/
theorem parse_stops_at_unknown (good : List (Bool × Field)) (rest bad tail : List Char)
    (hrest : rest ≠ [])
    (hsplit : splitOnce rest = (bad, tail))
    (hbad : fieldOfName (consumeNo bad).2 = none) :
    parseBuggyOptions (joinWithTail good rest) = Except.error (invalidParamMsg tail) := by
  unfold parseBuggyOptions
  rw [if_neg (joinWithTail_ne_nil good rest hrest), parseLoop_joinWithTail,
    parseLoop_step _ _ hrest, hsplit]
  simp only [applyToken, hbad]

/-- C8: for every configuration string with valid leading tokens followed
by a first segment that names no known field (after stripping an optional
`no-` prefix), parsing stops at that segment and returns a structured
error; the error text carries the remaining unparsed tail (the part after
that segment's `;`), not the offending segment itself. -/
theorem parse_unknown_segment_error_tail (good : List (Bool × Field))
    (rest bad tail : List Char)
    (hrest : rest ≠ [])
    (hsplit : splitOnce rest = (bad, tail))
    (hbad : fieldOfName (consumeNo bad).2 = none) :
    parseBuggyOptions (joinWithTail good rest) = Except.error (invalidParamMsg tail) :=
  parse_stops_at_unknown good rest bad tail hrest hsplit hbad

/-- Witness for C8: parsing "bogus;crash-on-vector" fails with an error
whose quoted text is the tail "crash-on-vector", not the bad segment
"bogus". -/
theorem parse_unknown_segment_error_tail_witness :
    parseBuggyOptions ("bogus;crash-on-vector".data) =
      Except.error (invalidParamMsg ("crash-on-vector".data)) :=
  parse_unknown_segment_error_tail [] ("bogus;crash-on-vector".data) ("bogus".data)
    ("crash-on-vector".data) (by decide) (by decide) (by decide)

/-- C9 counterexample: the string ";crash-on-vector" has an empty leading
segment; the parser treats the empty segment as an unrecognized token and
aborts, so the subsequent valid segment "crash-on-vector" is never parsed
or applied — no model is produced at all, refuting the claim that
segments after an empty one are still parsed and applied. -/
theorem parse_empty_segment_cex :
    parseBuggyOptions (';' :: "crash-on-vector".data) =
      Except.error (invalidParamMsg ("crash-on-vector".data)) ∧
    parseBuggyOptions (';' :: "crash-on-vector".data) ≠
      Except.ok { CrashOnVector := true } := by
  have h : parseBuggyOptions (';' :: "crash-on-vector".data) =
      Except.error (invalidParamMsg ("crash-on-vector".data)) :=
    parse_stops_at_unknown [] (';' :: "crash-on-vector".data) []
      ("crash-on-vector".data) (by decide) (by decide) (by decide)
  refine ⟨h, ?_⟩
  rw [h]
  simp

/-- C9 (amended): an empty segment arising from a leading `;` or a doubled
`;;` is treated as an unrecognized token — parsing aborts there with an
error carrying the remaining tail, and later segments are not parsed; a
*trailing* `;`, by contrast, produces no empty segment (the loop exits on
the emptied remainder), so a token list where every token is followed by
`;` still parses to the expected model. -/
theorem parse_empty_segment_behavior (good : List (Bool × Field)) (tail : List Char) :
    parseBuggyOptions (joinWithTail good (';' :: tail)) =
      Except.error (invalidParamMsg tail) ∧
    parseBuggyOptions (joinWithTail good []) = Except.ok (good.foldl updTok {}) := by
  constructor
  · exact parse_stops_at_unknown good (';' :: tail) [] tail (by simp)
      (by simp [splitOnce]) (by decide)
  · cases good with
    | nil => simp [joinWithTail, parseBuggyOptions]
    | cons t ts =>
      have hne : joinWithTail (t :: ts) [] ≠ [] := by
        show render t ++ ';' :: joinWithTail ts [] ≠ []
        simp
      unfold parseBuggyOptions
      rw [if_neg hne, parseLoop_joinWithTail, parseLoop_nil]

/-! ### The graph model: types, instructions, functions, modules

Only the structure that `BuggyPass::run` and `BuggyAttrPass::run` actually
inspect is represented. -/

/-- Comparison predicates of `ICmpInst` (the pass only distinguishes
`ICMP_SLT` and `ICMP_SLE`, the rest are carried for faithfulness). -/
inductive Predicate
  | eq | ne | ugt | uge | ult | ule | sgt | sge | slt | sle
deriving DecidableEq

/-- Result types, abstracted to the shape tests the pass performs:
`isa<VectorType>`, `isAggregateType()` (struct or array), and
`isIntegerTy(1)`. -/
inductive Ty
  | void
  | int (width : Nat)
  | ptr
  | vector
  | struct
  | array
  | otherTy
deriving DecidableEq

def Ty.isVectorTy : Ty → Bool
  | Ty.vector => true
  | _ => false

def Ty.isAggregateType : Ty → Bool
  | Ty.struct => true
  | Ty.array => true
  | _ => false

def Ty.isIntegerTy : Ty → Nat → Bool
  | Ty.int w, n => w == n
  | _, _ => false

/-- The callee of a call instruction: a directly named function, an
inline-assembly construct, or a runtime-computed (indirect) target.
`getCalledFunction()` returns a function only in the first case. -/
inductive Callee
  | fn (name : String)
  | inlineAsm (asmText : String)
  | indirect
deriving DecidableEq

def Callee.getCalledFunction : Callee → Option String
  | Callee.fn n => some n
  | _ => none

/-- Instructions, keeping exactly the observations the pass makes:
the `dyn_cast` shape, the result type, switch case count, phi incoming
edges (predecessor block id and whether the incoming value is the phi
itself), store/load pointer-operand provenance, and call callees. -/
inductive Instruction
  | icmp (pred : Predicate) (ty : Ty)
  | switch (numCases : Nat)
  | shufflevector (ty : Ty)
  | phi (ty : Ty) (incoming : List (Nat × Bool))
  | select (ty : Ty)
  | store (ptrIsConstantExpr : Bool)
  | load (ty : Ty) (ptrIsIntToPtr : Bool)
  | call (ty : Ty) (callee : Callee)
  | otherInst (ty : Ty)
deriving DecidableEq

def Instruction.getType : Instruction → Ty
  | Instruction.icmp _ ty => ty
  | Instruction.switch _ => Ty.void
  | Instruction.shufflevector ty => ty
  | Instruction.phi ty _ => ty
  | Instruction.select ty => ty
  | Instruction.store _ => Ty.void
  | Instruction.load ty _ => ty
  | Instruction.call ty _ => ty
  | Instruction.otherInst ty => ty

def Instruction.isPhi : Instruction → Bool
  | Instruction.phi _ _ => true
  | _ => false

/-- Linkage kinds, abstracted to the three predicates the pass calls:
`hasInternalLinkage`, `hasExternalLinkage`, `hasWeakLinkage`. -/
inductive Linkage
  | external
  | internal
  | weak
  | otherLinkage
deriving DecidableEq

def Linkage.isWeak : Linkage → Bool
  | Linkage.weak => true
  | _ => false

/-- A function: its linkage, its string function attributes, and its body
as a list of basic blocks, each a list of instructions in program order.
A declaration has no basic blocks. -/
structure Function where
  linkage : Linkage
  attrs : List String
  body : List (List Instruction)
deriving DecidableEq

def Function.hasInternalLinkage (F : Function) : Bool := decide (F.linkage = Linkage.internal)

def Function.hasExternalLinkage (F : Function) : Bool := decide (F.linkage = Linkage.external)

def Function.isDeclaration (F : Function) : Bool := F.body.isEmpty

def Function.hasFnAttribute (F : Function) (s : String) : Bool := F.attrs.contains s

def Function.addFnAttr (F : Function) (s : String) : Function :=
  { F with attrs := F.attrs ++ [s] }

/-- A module: the linkages of its global variables (all the pass reads of
them) and its functions. -/
structure Module where
  globals : List Linkage
  functions : List Function
deriving DecidableEq

/-- Total number of instructions of the function, as counted at source
lines 76-78 (`InstCount += BB.size()` over all blocks). -/
def instCount (F : Function) : Nat := (F.body.map List.length).sum

def buggyAttrName : String := "buggy-attr"

/-! ### The fault-trigger engine, `BuggyPass::run` (source lines 64-178) -/

/-- Outcome of running a piece of the pass: a normal return carrying a
value, a `report_fatal_error` abort carrying the diagnostic, or the
never-returning indirect-call busy loop. -/
inductive Flow (α : Type)
  | ok (val : α)
  | fatal (msg : String)
  | hang
deriving DecidableEq

def msgBuggyAttr : String := "buggy-attr is broken"
def msgWeakGlobal : String := "broken if there is a weak global"
def msgSwitchOdd : String := "switch with odd number of cases is broken"
def msgShuffle : String := "shufflevector instructions are broken"
def msgVector : String := "vector instructions are broken"
def msgPhiRepeated : String := "phi with repeated predecessor is broken"
def msgPhiSelf : String := "self referential phi is broken"
def msgAggregatePhi : String := "aggregate phis are broken"
def msgI1Select : String := "i1 typed select is broken"
def msgStoreConstExpr : String := "store to constantexpr pointer is broken"
def msgLoadIntToPtr : String := "load of inttoptr is broken"

/-- The miscompile step (source lines 106-113): an `ICMP_SLT` comparison
has its predicate rewritten in place to `ICMP_SLE` when the fault is
armed; every other instruction is left alone. -/
def miscompiledInst (O : BuggyOptions) : Instruction → Instruction
  | Instruction.icmp Predicate.slt ty =>
    if O.MiscompileICmpSltToSle then Instruction.icmp Predicate.sle ty
    else Instruction.icmp Predicate.slt ty
  | I => I

/-- `Switch->getNumCases() & 1` (source line 117). -/
def isOddCaseSwitch : Instruction → Bool
  | Instruction.switch n => n % 2 == 1
  | _ => false

def isShuffle : Instruction → Bool
  | Instruction.shufflevector _ => true
  | _ => false

/-- Set-insertion scan over a phi's incoming blocks (source lines 130-134):
true iff some predecessor block appears more than once. -/
def hasRepeatedBlock : List Nat → Bool
  | [] => false
  | b :: rest => rest.contains b || hasRepeatedBlock rest

def phiRepeatedPred : Instruction → Bool
  | Instruction.phi _ incoming => hasRepeatedBlock (incoming.map Prod.fst)
  | _ => false

/-- Scan over a phi's incoming values (source lines 137-142): true iff the
phi is one of its own incoming values. -/
def phiSelfRef : Instruction → Bool
  | Instruction.phi _ incoming => incoming.any Prod.snd
  | _ => false

def phiAggregate : Instruction → Bool
  | Instruction.phi ty _ => ty.isAggregateType
  | _ => false

def isI1Select : Instruction → Bool
  | Instruction.select ty => ty.isIntegerTy 1
  | _ => false

def isStoreToConstExpr : Instruction → Bool
  | Instruction.store p => p
  | _ => false

def isLoadOfIntToPtr : Instruction → Bool
  | Instruction.load _ p => p
  | _ => false

/-- The condition of the loop at source lines 167-171: the instruction is
a call (`dyn_cast<CallBase>` succeeds) with no statically-known callee
(`!CI->getCalledFunction()`). -/
def isIndirectCallLike : Instruction → Bool
  | Instruction.call _ c => (Callee.getCalledFunction c).isNone
  | _ => false

/-- Fuel-indexed model of the busy loop at source lines 167-171,
`while (looping) side_effect = 0;` with a loop condition that is invariant
across iterations: the first component is `some ()` when the loop exited
within `fuel` iterations and `none` when it was still running, the second
is the number of writes to the `side_effect` cell performed. -/
def indirectCallBusyLoop (looping : Bool) : Nat → Option Unit × Nat
  | 0 => if looping then (none, 0) else (some (), 0)
  | fuel + 1 =>
    if looping then
      ((indirectCallBusyLoop looping fuel).1, (indirectCallBusyLoop looping fuel).2 + 1)
    else (some (), 0)

/-- The body of the instruction loop (source lines 104-173): the
miscompile rewrite, then the crash checks in source order, then the
indirect-call loop; a surviving instruction is returned (the `Changed =
true` at line 173 is accounted for by the caller). -/
def processInst (O : BuggyOptions) (I0 : Instruction) : Flow Instruction :=
  let I := miscompiledInst O I0
  if O.CrashOnSwitchOddNumberCases && isOddCaseSwitch I then Flow.fatal msgSwitchOdd
  else if O.CrashOnShuffleVector && isShuffle I then Flow.fatal msgShuffle
  else if O.CrashOnVector && (Instruction.getType I).isVectorTy then Flow.fatal msgVector
  else if O.CrashOnPhiRepeatedPredecessor && phiRepeatedPred I then Flow.fatal msgPhiRepeated
  else if O.CrashOnPhiSelfReference && phiSelfRef I then Flow.fatal msgPhiSelf
  else if O.CrashOnAggregatePhi && phiAggregate I then Flow.fatal msgAggregatePhi
  else if O.CrashOnI1Select && isI1Select I then Flow.fatal msgI1Select
  else if O.CrashOnStoreToConstantExpr && isStoreToConstExpr I then Flow.fatal msgStoreConstExpr
  else if O.CrashOnLoadOfIntToPtr && isLoadOfIntToPtr I then Flow.fatal msgLoadIntToPtr
  else if O.InfLoopOnIndirectCall && isIndirectCallLike I then Flow.hang
  else Flow.ok I

/-- The inner loop over one block's instructions: the resulting
instruction list and whether `Changed` was set by visiting at least one
instruction (source line 173 sets it unconditionally per instruction). -/
def runInsts (O : BuggyOptions) : List Instruction → Flow (List Instruction × Bool)
  | [] => Flow.ok ([], false)
  | I :: rest =>
    match processInst O I with
    | Flow.ok J =>
      match runInsts O rest with
      | Flow.ok (rest2, _) => Flow.ok (J :: rest2, true)
      | Flow.fatal m => Flow.fatal m
      | Flow.hang => Flow.hang
    | Flow.fatal m => Flow.fatal m
    | Flow.hang => Flow.hang

/-- The outer loop over the function's basic blocks in program order. -/
def runBlocks (O : BuggyOptions) : List (List Instruction) → Flow (List (List Instruction) × Bool)
  | [] => Flow.ok ([], false)
  | BB :: rest =>
    match runInsts O BB with
    | Flow.ok (BB2, c1) =>
      match runBlocks O rest with
      | Flow.ok (rest2, c2) => Flow.ok (BB2 :: rest2, c1 || c2)
      | Flow.fatal m => Flow.fatal m
      | Flow.hang => Flow.hang
    | Flow.fatal m => Flow.fatal m
    | Flow.hang => Flow.hang

/-- The malformed assembly text of source line 98. -/
def skynetAsm : String := "skynet"

/-- The call instruction built at source lines 95-99: a call to an
inline-assembly construct with the malformed assembly text. -/
def asmCallInst : Instruction := Instruction.call Ty.void (Callee.inlineAsm skynetAsm)

/-- `getFirstInsertionPt()` of a block: the position after the leading phi
nodes (the model carries no EH pads, which it would also skip). -/
def firstInsertionPt : List Instruction → Nat
  | [] => 0
  | I :: rest => if I.isPhi then firstInsertionPt rest + 1 else 0

/-- Source lines 92-100: insert the malformed inline-asm call at the first
insertion point of the entry block.  A body-less declaration is returned
untouched; the host pass manager never runs a function pass on one. -/
def insertAsmCall (F : Function) : Function :=
  match F.body with
  | [] => F
  | BB :: rest =>
    { F with
      body := (BB.take (firstInsertionPt BB) ++ asmCallInst :: BB.drop (firstInsertionPt BB))
        :: rest }

/-- `BuggyPass::run` (source lines 64-178).  A normal return carries the
resulting function and the `Changed` flag; `Changed = true` corresponds
to returning `PreservedAnalyses::none()` (source lines 100 and 177) and
`false` to `PreservedAnalyses::all()` — "unchanged".  The module argument
models `F.getParent()`. -/
def BuggyPass.run (O : BuggyOptions) (M : Module) (F : Function) : Flow (Function × Bool) :=
  if O.BugOnlyIfInternalFunc && !F.hasInternalLinkage then Flow.ok (F, false)
  else if O.BugOnlyIfExternalFunc && !F.hasExternalLinkage then Flow.ok (F, false)
  else if O.CrashOnBuggyAttr && F.hasFnAttribute buggyAttrName then Flow.fatal msgBuggyAttr
  else if O.BugOnlyIfOddNumberInsts && instCount F % 2 == 0 then Flow.ok (F, false)
  else if O.CrashIfWeakGlobalExists && M.globals.any Linkage.isWeak then Flow.fatal msgWeakGlobal
  else if O.InsertUnparseableAsm then Flow.ok (insertAsmCall F, true)
  else
    match runBlocks O F.body with
    | Flow.ok (body2, changed) => Flow.ok ({ F with body := body2 }, changed)
    | Flow.fatal m => Flow.fatal m
    | Flow.hang => Flow.hang

/-- The loop of `BuggyAttrPass::run` (source lines 235-238): every
non-declaration function gets the sentinel attribute. -/
def attrLoop : List Function → List Function
  | [] => []
  | F :: rest =>
    (if !F.isDeclaration then F.addFnAttr buggyAttrName else F) :: attrLoop rest

/-- `BuggyAttrPass::run` (source lines 234-241).  The second component is
the "changed" report: the source returns `PreservedAnalyses::all()`
unconditionally (line 240), i.e. it reports unchanged (`false`). -/
def BuggyAttrPass.run (M : Module) : Module × Bool :=
  ({ M with functions := attrLoop M.functions }, false)

/-! ### Traversal lemmas -/

theorem indirectCallBusyLoop_true (fuel : Nat) :
    indirectCallBusyLoop true fuel = (none, fuel) := by
  induction fuel with
  | zero => rfl
  | succ n ih => simp [indirectCallBusyLoop, ih]

theorem runInsts_flag (O : BuggyOptions) (l : List Instruction)
    (p : List Instruction × Bool) (h : runInsts O l = Flow.ok p) : p.2 = !l.isEmpty := by
  induction l generalizing p with
  | nil =>
    simp only [runInsts, Flow.ok.injEq] at h
    subst h
    rfl
  | cons I rest ih =>
    simp only [runInsts] at h
    cases hp : processInst O I with
    | ok J =>
      rw [hp] at h
      cases hr : runInsts O rest with
      | ok q =>
        rw [hr] at h
        simp only [Flow.ok.injEq] at h
        subst h
        rfl
      | fatal m => rw [hr] at h; exact absurd h (by simp)
      | hang => rw [hr] at h; exact absurd h (by simp)
    | fatal m => rw [hp] at h; exact absurd h (by simp)
    | hang => rw [hp] at h; exact absurd h (by simp)

theorem runBlocks_flag (O : BuggyOptions) (bbs : List (List Instruction))
    (q : List (List Instruction) × Bool) (h : runBlocks O bbs = Flow.ok q) :
    q.2 = bbs.any (fun BB => !BB.isEmpty) := by
  induction bbs generalizing q with
  | nil =>
    simp only [runBlocks, Flow.ok.injEq] at h
    subst h
    rfl
  | cons BB rest ih =>
    simp only [runBlocks] at h
    cases hI : runInsts O BB with
    | ok pBB =>
      rw [hI] at h
      cases hR : runBlocks O rest with
      | ok q2 =>
        rw [hR] at h
        simp only [Flow.ok.injEq] at h
        subst h
        have h1 := runInsts_flag O BB pBB hI
        have h2 := ih q2 hR
        simp [List.any_cons, h1, h2]
      | fatal m => rw [hR] at h; exact absurd h (by simp)
      | hang => rw [hR] at h; exact absurd h (by simp)
    | fatal m => rw [hI] at h; exact absurd h (by simp)
    | hang => rw [hI] at h; exact absurd h (by simp)

theorem runInsts_of_self (O : BuggyOptions) (l : List Instruction)
    (h : ∀ I ∈ l, processInst O I = Flow.ok I) :
    runInsts O l = Flow.ok (l, !l.isEmpty) := by
  induction l with
  | nil => rfl
  | cons I rest ih =>
    have hI := h I (List.mem_cons_self I rest)
    have hrest := ih (fun J hJ => h J (List.mem_cons_of_mem _ hJ))
    simp [runInsts, hI, hrest]

theorem runInsts_self_append (O : BuggyOptions) (l1 l2 : List Instruction)
    (h1 : ∀ I ∈ l1, processInst O I = Flow.ok I)
    (l2r : List Instruction) (c2 : Bool) (h2 : runInsts O l2 = Flow.ok (l2r, c2)) :
    runInsts O (l1 ++ l2) = Flow.ok (l1 ++ l2r, c2 || !l1.isEmpty) := by
  induction l1 with
  | nil => simpa using h2
  | cons I l1' ih =>
    have hI := h1 I (List.mem_cons_self I l1')
    have ih2 := ih (fun J hJ => h1 J (List.mem_cons_of_mem _ hJ))
    simp [runInsts, hI, ih2]

theorem runInsts_self_append_hang (O : BuggyOptions) (l1 l2 : List Instruction)
    (h1 : ∀ I ∈ l1, processInst O I = Flow.ok I)
    (h2 : runInsts O l2 = Flow.hang) :
    runInsts O (l1 ++ l2) = Flow.hang := by
  induction l1 with
  | nil => simpa using h2
  | cons I l1' ih =>
    have hI := h1 I (List.mem_cons_self I l1')
    have ih2 := ih (fun J hJ => h1 J (List.mem_cons_of_mem _ hJ))
    simp [runInsts, hI, ih2]

theorem runBlocks_of_self (O : BuggyOptions) (bbs : List (List Instruction))
    (h : ∀ BB ∈ bbs, ∀ I ∈ BB, processInst O I = Flow.ok I) :
    runBlocks O bbs = Flow.ok (bbs, bbs.any (fun BB => !BB.isEmpty)) := by
  induction bbs with
  | nil => rfl
  | cons BB rest ih =>
    have hBB := runInsts_of_self O BB (h BB (List.mem_cons_self BB rest))
    have hrest := ih (fun B hB => h B (List.mem_cons_of_mem _ hB))
    simp [runBlocks, hBB, hrest, List.any_cons]

theorem runBlocks_self_append (O : BuggyOptions) (l1 l2 : List (List Instruction))
    (h1 : ∀ BB ∈ l1, ∀ I ∈ BB, processInst O I = Flow.ok I)
    (l2r : List (List Instruction)) (c2 : Bool) (h2 : runBlocks O l2 = Flow.ok (l2r, c2)) :
    runBlocks O (l1 ++ l2) = Flow.ok (l1 ++ l2r, (l1.any fun BB => !BB.isEmpty) || c2) := by
  induction l1 with
  | nil => simpa using h2
  | cons BB l1' ih =>
    have hBB := runInsts_of_self O BB (h1 BB (List.mem_cons_self BB l1'))
    have ih2 := ih (fun B hB => h1 B (List.mem_cons_of_mem _ hB))
    simp [runBlocks, hBB, ih2, List.any_cons, Bool.or_assoc]

theorem runBlocks_all_nil (O : BuggyOptions) (bbs : List (List Instruction))
    (h : ∀ BB ∈ bbs, BB = []) :
    runBlocks O bbs = Flow.ok (bbs, false) := by
  induction bbs with
  | nil => rfl
  | cons BB rest ih =>
    have hBB : BB = [] := h BB (List.mem_cons_self BB rest)
    subst hBB
    have hrest := ih (fun B hB => h B (List.mem_cons_of_mem _ hB))
    simp [runBlocks, runInsts, hrest]

theorem instCount_eq_zero_iff (F : Function) :
    instCount F = 0 ↔ ∀ BB ∈ F.body, BB = [] := by
  simp [instCount, List.sum_eq_zero_iff, List.length_eq_zero]

theorem any_nonempty_iff_instCount (F : Function) :
    (F.body.any fun BB => !BB.isEmpty) = true ↔ instCount F ≠ 0 := by
  rw [Ne, instCount_eq_zero_iff]
  simp [List.any_eq_true, List.isEmpty_iff]

/-- The one instruction the miscompile fault rewrites: an armed
`MiscompileICmpSltToSle` turns an `slt` comparison into `sle` and the
traversal continues (it crashes on nothing else, provided the
vector-crash check cannot fire on the comparison's type). -/
theorem processInst_icmp_slt (O : BuggyOptions) (ty : Ty)
    (hm : O.MiscompileICmpSltToSle = true)
    (hvec : (O.CrashOnVector && ty.isVectorTy) = false) :
    processInst O (Instruction.icmp Predicate.slt ty) =
      Flow.ok (Instruction.icmp Predicate.sle ty) := by
  simp [processInst, miscompiledInst, hm, isOddCaseSwitch, isShuffle, Instruction.getType,
    hvec, phiRepeatedPred, phiSelfRef, phiAggregate, isI1Select, isStoreToConstExpr,
    isLoadOfIntToPtr, isIndirectCallLike]

/-- A call through a runtime-computed target reaches the indirect-call
check (no earlier crash applies to a call, except the vector check on its
result type) and, with the fault armed, loops forever. -/
theorem processInst_indirect_call (O : BuggyOptions) (ty : Ty) (c : Callee)
    (hinf : O.InfLoopOnIndirectCall = true)
    (hc : Callee.getCalledFunction c = none)
    (hvec : (O.CrashOnVector && ty.isVectorTy) = false) :
    processInst O (Instruction.call ty c) = Flow.hang := by
  simp [processInst, miscompiledInst, hinf, hc, isOddCaseSwitch, isShuffle,
    Instruction.getType, hvec, phiRepeatedPred, phiSelfRef, phiAggregate, isI1Select,
    isStoreToConstExpr, isLoadOfIntToPtr, isIndirectCallLike]

/-! ### Concrete inputs used by witnesses and counterexamples -/

/-- A module with no globals and no functions. -/
def emptyModule : Module := { globals := [], functions := [] }

/-- A declaration-only (body-less) function. -/
def declFn : Function := { linkage := Linkage.external, attrs := [], body := [] }

/-- A function with a body of one instruction. -/
def defFn : Function :=
  { linkage := Linkage.external, attrs := [], body := [[Instruction.otherInst Ty.void]] }

/-- A module with two functions, one a declaration only. -/
def twoFnModule : Module := { globals := [], functions := [declFn, defFn] }

/-- A zero-instruction function already carrying the sentinel attribute. -/
def attrFn : Function :=
  { linkage := Linkage.external, attrs := [buggyAttrName], body := [[]] }

/-- A function with one empty basic block: zero instructions. -/
def emptyBlockFn : Function := { linkage := Linkage.external, attrs := [], body := [[]] }

/-- A function whose two (even count) instructions are vector-typed. -/
def evenVecFn : Function :=
  { linkage := Linkage.external, attrs := [],
    body := [[Instruction.otherInst Ty.vector, Instruction.otherInst Ty.vector]] }

/-- A function whose only instruction is a call through a runtime-computed
target. -/
def indirectCallFn : Function :=
  { linkage := Linkage.external, attrs := [],
    body := [[Instruction.call Ty.void Callee.indirect]] }

/-! ### C2: the preparatory attribute stage -/

theorem attrLoop_map (fns : List Function) :
    attrLoop fns =
      fns.map (fun F => if F.isDeclaration then F else F.addFnAttr buggyAttrName) := by
  induction fns with
  | nil => rfl
  | cons F rest ih =>
    cases hF : F.isDeclaration <;> simp [attrLoop, hF, ih]

/-- C2 counterexample: on a module holding a declaration and a
non-declaration function, the attribute stage does mark the
non-declaration function, but its report is "unchanged" (the source
returns `PreservedAnalyses::all()` at line 240), refuting the claim that
it reports "changed" whenever the module contains a non-declaration
function. -/
theorem buggyAttrPass_reports_unchanged_cex :
    (BuggyAttrPass.run twoFnModule).2 = false ∧
    twoFnModule.functions.any (fun F => !F.isDeclaration) = true ∧
    (BuggyAttrPass.run twoFnModule).1.functions =
      [declFn, defFn.addFnAttr buggyAttrName] :=
  ⟨rfl, by decide, rfl⟩

/-- C2 (amended): the preparatory attribute stage attaches the sentinel
"buggy-attr" attribute to exactly the functions that are not
declaration-only and touches nothing else — but it always reports
"unchanged" (it returns `PreservedAnalyses::all()`), even when the module
contains non-declaration functions. -/
theorem buggyAttrPass_marks_reports_unchanged (M : Module) :
    (BuggyAttrPass.run M).2 = false ∧
    (BuggyAttrPass.run M).1.functions =
      M.functions.map (fun F => if F.isDeclaration then F else F.addFnAttr buggyAttrName) ∧
    (BuggyAttrPass.run M).1.globals = M.globals :=
  ⟨rfl, by simp [BuggyAttrPass.run, attrLoop_map], rfl⟩

/-! ### C3: the even-instruction-count gate -/

/-- C3 counterexample: `crash-on-buggy-attr` is checked at source line 72,
*before* the odd-instruction-count gate of lines 76-81; a zero-instruction
(hence even) function carrying the sentinel attribute aborts even though
`bug-only-if-odd-number-insts` is armed, refuting "reports unchanged
regardless of which other faults are armed (no crash)". -/
theorem even_inst_gate_cex :
    instCount attrFn = 0 ∧
    BuggyPass.run
      { BugOnlyIfOddNumberInsts := true, CrashOnBuggyAttr := true }
      emptyModule attrFn = Flow.fatal msgBuggyAttr :=
  ⟨rfl, rfl⟩

/-- C3 (amended): when `bug-only-if-odd-number-insts` is armed and the
function's total instruction count is even (including zero), `runOnFunction`
reports "unchanged" — with no crash, hang, or mutation — regardless of
which other faults are armed, *provided* the earlier buggy-attr crash does
not fire (i.e. `crash-on-buggy-attr` is unarmed or the function lacks the
sentinel attribute; that check precedes the count gate). -/
theorem even_inst_gate_unchanged (O : BuggyOptions) (M : Module) (F : Function)
    (harm : O.BugOnlyIfOddNumberInsts = true)
    (heven : instCount F % 2 = 0)
    (hattr : (O.CrashOnBuggyAttr && F.hasFnAttribute buggyAttrName) = false) :
    BuggyPass.run O M F = Flow.ok (F, false) := by
  simp [BuggyPass.run, harm, heven, hattr]

/-- Witness for C3 (amended): two instructions (even), the vector crash
armed on a function full of vector instructions — still "unchanged". -/
theorem even_inst_gate_unchanged_witness :
    BuggyPass.run { BugOnlyIfOddNumberInsts := true, CrashOnVector := true }
      emptyModule evenVecFn = Flow.ok (evenVecFn, false) :=
  even_inst_gate_unchanged _ emptyModule evenVecFn rfl rfl rfl

/-! ### C4: zero-instruction functions -/

/-- C4 counterexample: a zero-instruction function is *not* inert under
every option model: with `insert-unparseable-asm` armed the pass inserts
the malformed inline-asm call into the (empty) entry block and reports
"changed", refuting "reports unchanged, performs no graph mutation". -/
theorem zero_inst_unchanged_cex :
    instCount emptyBlockFn = 0 ∧
    BuggyPass.run { InsertUnparseableAsm := true } emptyModule emptyBlockFn =
      Flow.ok ({ emptyBlockFn with body := [[asmCallInst]] }, true) :=
  ⟨rfl, rfl⟩

/-- C4 (amended): a zero-instruction function yields "unchanged", no
mutation and no abort under any option model in which the three checks
that never look at instructions cannot fire: `insert-unparseable-asm` is
unarmed, the buggy-attr crash does not apply (unarmed or attribute
absent), and the weak-global crash does not apply (unarmed or no weak
global in the module). -/
theorem zero_inst_unchanged (O : BuggyOptions) (M : Module) (F : Function)
    (h0 : instCount F = 0)
    (hasm : O.InsertUnparseableAsm = false)
    (hattr : (O.CrashOnBuggyAttr && F.hasFnAttribute buggyAttrName) = false)
    (hweak : (O.CrashIfWeakGlobalExists && M.globals.any Linkage.isWeak) = false) :
    BuggyPass.run O M F = Flow.ok (F, false) := by
  have hrb := runBlocks_all_nil O F.body ((instCount_eq_zero_iff F).mp h0)
  simp [BuggyPass.run, h0, hasm, hattr, hweak, hrb]

/-- Witness for C4 (amended): several faults armed (vector crash,
miscompile, infinite loop, weak-global crash with no weak global present)
on a function with one empty block — "unchanged", untouched, no abort. -/
theorem zero_inst_unchanged_witness :
    BuggyPass.run
      { CrashOnVector := true, MiscompileICmpSltToSle := true,
        InfLoopOnIndirectCall := true, CrashIfWeakGlobalExists := true }
      emptyModule emptyBlockFn = Flow.ok (emptyBlockFn, false) :=
  zero_inst_unchanged _ emptyModule emptyBlockFn rfl rfl rfl rfl

/-! ### C5: the meaning of the "changed" report -/

/-- C5 counterexample: with only `infloop-on-indirect-call` armed, a
function whose single instruction is an indirect call passes every early
gate, takes neither the unparseable-asm path nor any crash path, and
contains an instruction — yet the invocation never returns, so there is
no "changed" result at all, refuting the claimed equivalence as stated. -/
theorem changed_iff_visited_cex :
    BuggyPass.run { InfLoopOnIndirectCall := true } emptyModule indirectCallFn =
      Flow.hang ∧
    instCount indirectCallFn ≠ 0 :=
  ⟨rfl, by decide⟩

/-- C5 (amended): whenever `runOnFunction` passes the early gates, does
not take the unparseable-asm path, and returns normally (so neither a
crash nor the indirect-call infinite loop occurred), the reported result
is "changed" exactly when the function contains at least one instruction —
visiting an instruction marks the function changed whether or not any
fault fired or any mutation happened. -/
theorem changed_iff_visited (O : BuggyOptions) (M : Module) (F F2 : Function) (c : Bool)
    (hint : (O.BugOnlyIfInternalFunc && !F.hasInternalLinkage) = false)
    (hext : (O.BugOnlyIfExternalFunc && !F.hasExternalLinkage) = false)
    (hodd : (O.BugOnlyIfOddNumberInsts && instCount F % 2 == 0) = false)
    (hasm : O.InsertUnparseableAsm = false)
    (hrun : BuggyPass.run O M F = Flow.ok (F2, c)) :
    c = true ↔ instCount F ≠ 0 := by
  unfold BuggyPass.run at hrun
  rw [hint, hext, hodd, hasm] at hrun
  simp only [Bool.false_eq_true, if_false] at hrun
  by_cases hattr : (O.CrashOnBuggyAttr && F.hasFnAttribute buggyAttrName) = true
  · rw [if_pos hattr] at hrun
    exact absurd hrun (by simp)
  · rw [if_neg hattr] at hrun
    by_cases hweak : (O.CrashIfWeakGlobalExists && M.globals.any Linkage.isWeak) = true
    · rw [if_pos hweak] at hrun
      exact absurd hrun (by simp)
    · rw [if_neg hweak] at hrun
      cases hrb : runBlocks O F.body with
      | ok q =>
        rw [hrb] at hrun
        have hflag := runBlocks_flag O F.body q hrb
        obtain ⟨body2, c2⟩ := q
        have hflag2 : c2 = F.body.any fun BB => !BB.isEmpty := hflag
        simp only [Flow.ok.injEq, Prod.mk.injEq] at hrun
        rw [← hrun.2, hflag2]
        exact any_nonempty_iff_instCount F
      | fatal m => rw [hrb] at hrun; exact absurd hrun (by simp)
      | hang => rw [hrb] at hrun; exact absurd hrun (by simp)

/-- Witness for C5 (amended): one ordinary instruction, no fault armed —
the run returns normally with "changed", and indeed the count is nonzero. -/
theorem changed_iff_visited_witness :
    (true = true ↔ instCount defFn ≠ 0) :=
  changed_iff_visited {} emptyModule defFn defFn true rfl rfl rfl rfl rfl

/-! ### C6: the slt-to-sle miscompile -/

/-- C6: with `miscompile-icmp-slt-to-sle` armed, no gate blocking
(hypotheses on the gates), no other fault firing (every instruction other
than the one `slt` comparison processes without crash, hang, or change,
and the vector crash cannot fire on the comparison's own type),
`runOnFunction` rewrites that one comparison's predicate to `sle` in
place, leaves every other instruction and block intact — the traversal
continues past it — reports "changed", and does not abort. -/
theorem miscompile_slt_to_sle (O : BuggyOptions) (M : Module) (lk : Linkage)
    (attrs : List String) (bbsPre bbsPost : List (List Instruction))
    (pre post : List Instruction) (ty : Ty) (F : Function)
    (hF : F = { linkage := lk, attrs := attrs,
                body := bbsPre ++ (pre ++ Instruction.icmp Predicate.slt ty :: post)
                  :: bbsPost })
    (hm : O.MiscompileICmpSltToSle = true)
    (hvec : (O.CrashOnVector && ty.isVectorTy) = false)
    (hint : (O.BugOnlyIfInternalFunc && !F.hasInternalLinkage) = false)
    (hext : (O.BugOnlyIfExternalFunc && !F.hasExternalLinkage) = false)
    (hattr : (O.CrashOnBuggyAttr && F.hasFnAttribute buggyAttrName) = false)
    (hodd : (O.BugOnlyIfOddNumberInsts && instCount F % 2 == 0) = false)
    (hweak : (O.CrashIfWeakGlobalExists && M.globals.any Linkage.isWeak) = false)
    (hasm : O.InsertUnparseableAsm = false)
    (hothers : ∀ I, I ∈ pre ∨ I ∈ post ∨ (∃ BB, (BB ∈ bbsPre ∨ BB ∈ bbsPost) ∧ I ∈ BB) →
      processInst O I = Flow.ok I) :
    BuggyPass.run O M F =
      Flow.ok ({ linkage := lk, attrs := attrs,
                 body := bbsPre ++ (pre ++ Instruction.icmp Predicate.sle ty :: post)
                   :: bbsPost },
        true) := by
  have hpost : runInsts O (Instruction.icmp Predicate.slt ty :: post) =
      Flow.ok (Instruction.icmp Predicate.sle ty :: post, true) := by
    have hp := runInsts_of_self O post (fun I hI => hothers I (Or.inr (Or.inl hI)))
    simp [runInsts, processInst_icmp_slt O ty hm hvec, hp]
  have hmid := runInsts_self_append O pre _
    (fun I hI => hothers I (Or.inl hI)) _ _ hpost
  have htailBlocks := runBlocks_of_self O bbsPost
    (fun BB hBB I hI => hothers I (Or.inr (Or.inr ⟨BB, Or.inr hBB, hI⟩)))
  have hblk : runBlocks O ((pre ++ Instruction.icmp Predicate.slt ty :: post) :: bbsPost) =
      Flow.ok ((pre ++ Instruction.icmp Predicate.sle ty :: post) :: bbsPost, true) := by
    simp [runBlocks, hmid, htailBlocks]
  have hall := runBlocks_self_append O bbsPre _
    (fun BB hBB I hI => hothers I (Or.inr (Or.inr ⟨BB, Or.inl hBB, hI⟩))) _ _ hblk
  subst hF
  unfold BuggyPass.run
  rw [hint, hext, hattr, hodd, hweak, hasm]
  simp only [Bool.false_eq_true, if_false]
  rw [hall]
  simp

/-- Witness for C6: a function whose single instruction is an `slt`
comparison of type `i1`, with only the miscompile armed: the predicate is
rewritten to `sle` and the run reports "changed". -/
theorem miscompile_slt_to_sle_witness :
    BuggyPass.run { MiscompileICmpSltToSle := true } emptyModule
      { linkage := Linkage.external, attrs := [],
        body := [[Instruction.icmp Predicate.slt (Ty.int 1)]] } =
      Flow.ok ({ linkage := Linkage.external, attrs := [],
                 body := [[Instruction.icmp Predicate.sle (Ty.int 1)]] }, true) :=
  miscompile_slt_to_sle { MiscompileICmpSltToSle := true } emptyModule
    Linkage.external [] [] [] [] [] (Ty.int 1) _ rfl rfl rfl rfl rfl rfl rfl rfl rfl
    (by intro I h; simp at h)

/-! ### C7: unparseable-asm insertion is exclusive -/

/-- C7: with `insert-unparseable-asm` armed and none of the earlier gating
or crash steps firing, `runOnFunction` inserts exactly one call
instruction (the malformed inline-asm call) at the first valid insertion
point of the entry block, reports "changed", and returns right there: no
other mutation happens and no instruction-level fault is evaluated — the
equality holds for every option model and every block content, including
ones that would otherwise crash or hang the instruction loop. -/
theorem insert_asm_exclusive (O : BuggyOptions) (M : Module) (F : Function)
    (BB : List Instruction) (rest : List (List Instruction))
    (hbody : F.body = BB :: rest)
    (hasm : O.InsertUnparseableAsm = true)
    (hint : (O.BugOnlyIfInternalFunc && !F.hasInternalLinkage) = false)
    (hext : (O.BugOnlyIfExternalFunc && !F.hasExternalLinkage) = false)
    (hattr : (O.CrashOnBuggyAttr && F.hasFnAttribute buggyAttrName) = false)
    (hodd : (O.BugOnlyIfOddNumberInsts && instCount F % 2 == 0) = false)
    (hweak : (O.CrashIfWeakGlobalExists && M.globals.any Linkage.isWeak) = false) :
    BuggyPass.run O M F =
      Flow.ok ({ F with
        body := (BB.take (firstInsertionPt BB) ++
          asmCallInst :: BB.drop (firstInsertionPt BB)) :: rest }, true) := by
  unfold BuggyPass.run
  rw [hint, hext, hattr, hodd, hweak, hasm]
  simp only [Bool.false_eq_true, if_false, if_true]
  simp [insertAsmCall, hbody]

/-- Witness for C7: the vector crash is armed and the single existing
instruction is vector-typed, yet the asm insertion happens first and the
run returns "changed" without ever reaching the vector check; the asm
call lands at position 0 (no leading phis). -/
theorem insert_asm_exclusive_witness :
    BuggyPass.run { InsertUnparseableAsm := true, CrashOnVector := true } emptyModule
      { linkage := Linkage.external, attrs := [],
        body := [[Instruction.otherInst Ty.vector]] } =
      Flow.ok ({ linkage := Linkage.external, attrs := [],
                 body := [[asmCallInst, Instruction.otherInst Ty.vector]] }, true) :=
  insert_asm_exclusive { InsertUnparseableAsm := true, CrashOnVector := true }
    emptyModule _ [Instruction.otherInst Ty.vector] [] rfl rfl rfl rfl rfl rfl rfl

/-! ### C10: the indirect-call infinite loop -/

/-- Instructions that process to a normal continuation — possibly rewritten
in place, as the armed miscompile does to an `slt` comparison — let the
traversal proceed; a hang later in the same block still hangs the run. -/
theorem runInsts_cont_append_hang (O : BuggyOptions) (l1 l2 : List Instruction)
    (h1 : ∀ I ∈ l1, ∃ J, processInst O I = Flow.ok J)
    (h2 : runInsts O l2 = Flow.hang) :
    runInsts O (l1 ++ l2) = Flow.hang := by
  induction l1 with
  | nil => simpa using h2
  | cons I l1' ih =>
    obtain ⟨J, hJ⟩ := h1 I (List.mem_cons_self I l1')
    have ih2 := ih (fun K hK => h1 K (List.mem_cons_of_mem _ hK))
    simp [runInsts, hJ, ih2]

/-- A block whose every instruction processes to a normal continuation
yields a normal (ok) result for the block. -/
theorem runInsts_cont (O : BuggyOptions) (l : List Instruction)
    (h : ∀ I ∈ l, ∃ J, processInst O I = Flow.ok J) :
    ∃ l2 : List Instruction, runInsts O l = Flow.ok (l2, !l.isEmpty) := by
  induction l with
  | nil => exact ⟨[], rfl⟩
  | cons I rest ih =>
    obtain ⟨J, hJ⟩ := h I (List.mem_cons_self I rest)
    obtain ⟨rest2, hrest⟩ := ih (fun K hK => h K (List.mem_cons_of_mem _ hK))
    exact ⟨J :: rest2, by simp [runInsts, hJ, hrest]⟩

/-- Earlier blocks whose instructions all process to normal continuations
do not stop the traversal: a hang in the remaining blocks hangs the run. -/
theorem runBlocks_cont_append_hang (O : BuggyOptions) (l1 l2 : List (List Instruction))
    (h1 : ∀ BB ∈ l1, ∀ I ∈ BB, ∃ J, processInst O I = Flow.ok J)
    (h2 : runBlocks O l2 = Flow.hang) :
    runBlocks O (l1 ++ l2) = Flow.hang := by
  induction l1 with
  | nil => simpa using h2
  | cons BB l1' ih =>
    obtain ⟨BB2, hBB⟩ := runInsts_cont O BB (h1 BB (List.mem_cons_self BB l1'))
    have ih2 := ih (fun B hB => h1 B (List.mem_cons_of_mem _ hB))
    simp [runBlocks, hBB, ih2]

/-- C10: with `infloop-on-indirect-call` armed, every function containing
a call through a runtime-computed target (no statically known callee) —
in any basic block, after any earlier instructions — hangs, provided no
gate blocks, the asm path is unarmed, and nothing before the call crashes
or hangs first: each earlier instruction processes to a normal
continuation (it may be rewritten in place, as the armed miscompile does),
and the vector check cannot fire on the call itself.  `runOnFunction`
then never returns: the invocation enters the busy loop, which for every
fuel bound is still running — having performed one visible write to the
side-effect cell per iteration — and has no exit or cancellation path. -/
theorem infloop_indirect_never_returns (O : BuggyOptions) (M : Module) (lk : Linkage)
    (attrs : List String) (bbsPre bbsPost : List (List Instruction))
    (pre post : List Instruction) (ty : Ty) (c : Callee)
    (F : Function)
    (hF : F = { linkage := lk, attrs := attrs,
                body := bbsPre ++ (pre ++ Instruction.call ty c :: post) :: bbsPost })
    (hinf : O.InfLoopOnIndirectCall = true)
    (hc : Callee.getCalledFunction c = none)
    (hvec : (O.CrashOnVector && ty.isVectorTy) = false)
    (hint : (O.BugOnlyIfInternalFunc && !F.hasInternalLinkage) = false)
    (hext : (O.BugOnlyIfExternalFunc && !F.hasExternalLinkage) = false)
    (hattr : (O.CrashOnBuggyAttr && F.hasFnAttribute buggyAttrName) = false)
    (hodd : (O.BugOnlyIfOddNumberInsts && instCount F % 2 == 0) = false)
    (hweak : (O.CrashIfWeakGlobalExists && M.globals.any Linkage.isWeak) = false)
    (hasm : O.InsertUnparseableAsm = false)
    (hbbsPre : ∀ BB ∈ bbsPre, ∀ I ∈ BB, ∃ J, processInst O I = Flow.ok J)
    (hpre : ∀ I ∈ pre, ∃ J, processInst O I = Flow.ok J) :
    BuggyPass.run O M F = Flow.hang ∧
    ∀ fuel, indirectCallBusyLoop true fuel = (none, fuel) := by
  constructor
  · have hcall : runInsts O (Instruction.call ty c :: post) = Flow.hang := by
      simp [runInsts, processInst_indirect_call O ty c hinf hc hvec]
    have hrow := runInsts_cont_append_hang O pre _ hpre hcall
    have hblk : runBlocks O ((pre ++ Instruction.call ty c :: post) :: bbsPost) =
        Flow.hang := by
      simp [runBlocks, hrow]
    have hall := runBlocks_cont_append_hang O bbsPre _ hbbsPre hblk
    subst hF
    unfold BuggyPass.run
    rw [hint, hext, hattr, hodd, hweak, hasm]
    simp only [Bool.false_eq_true, if_false]
    simp [hall]
  · exact indirectCallBusyLoop_true

/-- A function whose first block holds an `slt` comparison and whose
second block holds the indirect call. -/
def sltThenIndirectFn : Function :=
  { linkage := Linkage.external, attrs := [],
    body := [[Instruction.icmp Predicate.slt (Ty.int 1)],
             [Instruction.call Ty.void Callee.indirect]] }

/-- Witness for C10: the infinite-loop fault armed together with the
miscompile, on a two-block function — the `slt` comparison in the first
block is rewritten and traversal continues into the second block, where
the indirect call hangs the run; the modelled busy loop is still running
at every fuel bound with exactly `fuel` side-effect writes performed. -/
theorem infloop_indirect_never_returns_witness :
    BuggyPass.run { InfLoopOnIndirectCall := true, MiscompileICmpSltToSle := true }
      emptyModule sltThenIndirectFn = Flow.hang ∧
    ∀ fuel, indirectCallBusyLoop true fuel = (none, fuel) :=
  infloop_indirect_never_returns
    { InfLoopOnIndirectCall := true, MiscompileICmpSltToSle := true } emptyModule
    Linkage.external [] [[Instruction.icmp Predicate.slt (Ty.int 1)]] [] [] []
    Ty.void Callee.indirect sltThenIndirectFn rfl rfl rfl rfl rfl rfl rfl rfl rfl rfl
    (by
      intro BB hBB I hI
      simp only [List.mem_singleton] at hBB
      subst hBB
      simp only [List.mem_singleton] at hI
      subst hI
      exact ⟨Instruction.icmp Predicate.sle (Ty.int 1), by decide⟩)
    (by intro I h; simp at h)

end BuggyPlugin
